import Mathlib

set_option maxRecDepth 100000

/-!
Verification of the scraper application (`scraper.py` and the `scraper_app`
package) against its natural-language specification.

The embedding models the program's data and control flow directly from the
source:

* URLs are modelled as their parsed components (`scheme`, `netloc`, `path`,
  `query`, `fragment`), exactly the fields of Python's `urlparse` that the
  program reads.  `urlString` re-serializes a URL, which is what the program
  stores in its work lists and sets.  Python string operations
  (`str.endswith`, `str.startswith`, `str.lower`, `str.split`) are modelled
  on the underlying character lists.
* HTML fetching and parsing (`requests.get` + BeautifulSoup) are external
  collaborators; per the program structure, a fetch of a URL either fails
  (`requests` exception / no extractable content) or yields a page whose
  content area contains a list of resolved anchor links, a list of resolved
  attachment links, and whose markdown save either succeeds or raises
  `IOError`.  This oracle is the `Web` structure.
* The staged crawl loop of `main` (depth loop, per-depth executor, link
  finding, `--same-domain` filtering, `processed_urls` bookkeeping) is
  modelled verbatim as `crawlLoop`.  The thread pool's completion order is
  abstracted to submission order, a legal schedule; all claims proved are
  order-insensitive (membership / multiplicity of executed tasks).
-/

namespace Scraper

/-- A parsed URL, the components `urllib.parse.urlparse` exposes and the
program reads. -/
structure Url where
  scheme : String
  netloc : String
  path : String
  query : String
  fragment : String
deriving DecidableEq, Repr

/-- Serialization of a parsed URL back to the string the program passes
around (`urlunparse` shape for the fields used). -/
def urlString (u : Url) : String :=
  u.scheme ++ "://" ++ u.netloc ++ u.path
    ++ (if u.query = "" then "" else "?" ++ u.query)
    ++ (if u.fragment = "" then "" else "#" ++ u.fragment)

/-- Python `s.lower()` on the characters of a string. -/
def strLower (s : String) : String :=
  String.mk (s.data.map Char.toLower)

/-- Python `s.endswith(pat)` modelled on character lists. -/
def strEndsWith (s pat : String) : Bool :=
  pat.data.isSuffixOf s.data

/-- Python `s.startswith(pat)` modelled on character lists. -/
def strStartsWith (s pat : String) : Bool :=
  pat.data.isPrefixOf s.data

/-- Python `s.split('/')` modelled on character lists (always returns a
non-empty list of segments). -/
def splitOnSlash : List Char → List (List Char)
  | [] => [[]]
  | a :: rest =>
    match splitOnSlash rest with
    | h :: t => if a = '/' then [] :: h :: t else (a :: h) :: t
    | [] => [[a]]

/-- The result the program can observe for one HTML page fetch: the resolved
anchor links of the content area, the resolved attachment links, and whether
the markdown save succeeds (`IOError` otherwise). -/
structure PageData where
  anchors : List Url
  docLinks : List Url
  writeOk : Bool
deriving DecidableEq, Repr

/-- Outcome of fetching a URL as HTML: a `requests` failure / no content at
all, or a page. -/
inductive FetchResult where
  | failure
  | page (p : PageData)
deriving DecidableEq, Repr

/-- The network/filesystem oracle: HTML fetch outcome per URL, and whether a
binary (PDF) download of a URL succeeds. -/
structure Web where
  fetch : Url → FetchResult
  download : Url → Bool

/-- The run configuration relevant to the crawl loop (`--crawl`,
`--max-depth`, `--same-domain`). -/
structure Config where
  crawl : Bool
  maxDepth : Nat
  sameDomain : Bool
deriving DecidableEq, Repr

/-- `scrape_content` (scraper.py:28-154): on fetch failure or missing
content returns `None, []`; on success extracts the attachment links that
start with `http`, then writes the markdown file; on `IOError` it returns
`None, []`, discarding the extracted links; on success it returns the
content area and the attachment links. -/
def scrape_content (r : FetchResult) : Option (List Url × List Url) :=
  match r with
  | .failure => none
  | .page p =>
    if p.writeOk then
      some (p.anchors, p.docLinks.filter fun d => strStartsWith (urlString d) "http")
    else none

/-- The attachment-link filter of `parse_and_save_html`
(scraper_app/parse_html.py:168-176): keeps a resolved link if it starts with
`http`, its last `/`-segment has no `#`, and it does not end with a web-page
extension. -/
def htmlDocOk (d : Url) : Bool :=
  let s := urlString d
  strStartsWith s "http"
    && !(((splitOnSlash s.data).getLastD []).contains '#')
    && !([".html", ".htm", ".php", ".asp", ".aspx"].any fun e =>
          strEndsWith (strLower s) e)

/-- `parse_and_save_html` (scraper_app/parse_html.py:60-199): on fetch
failure returns `(None, [])`; once a content area is found it extracts the
filtered attachment links and returns the content area and the links even
when the markdown write raises `IOError` (parse_html.py:197-199). -/
def parse_and_save_html (r : FetchResult) : Option (List Url) × List Url :=
  match r with
  | .failure => (none, [])
  | .page p => (some p.anchors, p.docLinks.filter htmlDocOk)

/-- The extension denylist of `find_sub_links` (scraper.py:264). -/
def denylistExts : List String :=
  [".pdf", ".zip", ".doc", ".docx", ".xls", ".xlsx", ".ppt", ".pptx",
   ".csv", ".json", ".xml", ".atom", ".rss"]

/-- The link filter of `find_sub_links` (scraper.py:250-265): scheme must be
http/https, netloc must end with `gov.uk`, the resolved URL must have no
fragment, and the lowercased URL string must not end with a denylisted
extension. -/
def subLinkOk (a : Url) : Bool :=
  (a.scheme == "http" || a.scheme == "https")
    && strEndsWith a.netloc "gov.uk"
    && a.fragment == ""
    && !(denylistExts.any fun e => strEndsWith (strLower (urlString a)) e)

/-- `find_sub_links` (scraper.py:237-270): filters the resolved anchor links
of the content area and returns the accepted ones as a duplicate-free list
(Python builds a `set`; set iteration is modelled as first-occurrence
order).  The base URL is parsed for its domain in the source but the value
is unused. -/
def find_sub_links (_base : Url) (anchors : List Url) : List Url :=
  (anchors.filter subLinkOk).dedup

/-- `scrape_and_process` (scraper.py:469-496): URLs whose path ends with
`.pdf` are downloaded as binaries (no entry in `scrape_results`); otherwise
the URL is scraped as HTML, a success stores `(content_area, document_urls)`
in `scrape_results` and returns the URL, a failure returns `None`.  The
first component is the task's return value, the second its
`scrape_results` entry. -/
def scrape_and_process (web : Web) (u : Url) :
    Option Url × Option (List Url × List Url) :=
  if u.path ≠ "" ∧ strEndsWith (strLower u.path) ".pdf" then
    (if web.download u then some u else none, none)
  else
    match scrape_content (web.fetch u) with
    | some r => (some u, some r)
    | none => (none, none)

/-- One step of the link-admission loop of `main` (scraper.py:419-432): a
link from a parent is skipped when `--same-domain` is set and its netloc
differs from the parent's, when it is in `processed_urls`, or when it is
already in `next_urls_to_process`; otherwise it is added. -/
def admit_link (cfg : Config) (processed : List Url) (parentNetloc : String)
    (next : List Url) (link : Url) : List Url :=
  if cfg.sameDomain = true ∧ link.netloc ≠ parentNetloc then next
  else if link ∈ processed then next
  else if link ∈ next then next
  else next ++ [link]

/-- The per-parent admission loop of `main` (scraper.py:416-432): iterates
over the distinct links found from one parent (`set(links_from_this_parent)`,
modelled in first-occurrence order) and admits each into the next frontier. -/
def admit_from_parent (cfg : Config) (processed : List Url) (parent : Url)
    (next : List Url) (links : List Url) : List Url :=
  links.dedup.foldl (admit_link cfg processed parent.netloc) next

/-- The links collected from one parent (scraper.py:393-414): the stored
attachment links always (when the parent has a `scrape_results` entry), plus
`find_sub_links` of the stored content area when `--crawl` is set. -/
def links_from_parent (cfg : Config) (parent : Url)
    (stored : Option (List Url × List Url)) : List Url :=
  let fromDocs := match stored with
    | some r => r.2
    | none => []
  let fromSubs :=
    if cfg.crawl then
      match stored with
      | some r => find_sub_links parent r.1
      | none => []
    else []
  fromDocs ++ fromSubs

/-- The per-depth executor round (scraper.py:371-384): every URL of the
current depth is submitted to `scrape_and_process` exactly once. -/
def depth_results (web : Web) (urls : List Url) :
    List (Url × (Option Url × Option (List Url × List Url))) :=
  urls.map fun u => (u, scrape_and_process web u)

/-- Accumulated observable behaviour of a run: every URL ever handed to
`scrape_and_process` (in submission order, with multiplicity), and every URL
whose task returned success. -/
structure RunAcc where
  execLog : List Url
  successes : List Url
deriving DecidableEq, Repr

/-- The staged crawl loop of `main` (scraper.py:363-443), with the remaining
number of admissible depths as fuel (`effective_max_depth + 1` at depth 0):
while the frontier is non-empty and the depth bound is not exceeded, scrape
every frontier URL, then build the next frontier from the successful
parents' links.  `processed` models `processed_urls`, which the source
never adds to (scraper.py:353,429). -/
def crawlLoop (web : Web) (cfg : Config) :
    Nat → List Url → List Url → RunAcc → RunAcc
  | 0, _, _, acc => acc
  | fuel + 1, urls, processed, acc =>
    if urls.isEmpty then acc
    else
      let results := depth_results web urls
      let succ := results.filterMap fun r => r.2.1
      let acc' : RunAcc := ⟨acc.execLog ++ urls, acc.successes ++ succ⟩
      let stored := fun p : Url =>
        (results.find? fun r => r.1 == p).bind fun r => r.2.2
      let next := succ.foldl
        (fun nxt parent =>
          admit_from_parent cfg processed parent nxt
            (links_from_parent cfg parent (stored parent)))
        []
      if next.isEmpty then acc'
      else crawlLoop web cfg fuel next processed acc'

/-- `effective_max_depth` (scraper.py:361): `--max-depth` when `--crawl` is
set, otherwise 0. -/
def effectiveMaxDepth (cfg : Config) : Nat :=
  if cfg.crawl then cfg.maxDepth else 0

/-- A full crawl from the initial URL set (scraper.py:352-443): the seeds
are deduplicated (`set(args.urls)` union feed URLs), `processed_urls` starts
empty, and the loop admits depths `0 .. effective_max_depth`. -/
def runCrawl (web : Web) (cfg : Config) (seeds : List Url) : RunAcc :=
  crawlLoop web cfg (effectiveMaxDepth cfg + 1) seeds.dedup [] ⟨[], []⟩

/-- Filesystem oracle for `--feed-file`: the file is missing
(`FileNotFoundError`), unreadable (generic exception), or has lines. -/
inductive FeedFileFS where
  | missing
  | readError
  | lines (ls : List String)

/-- The parsed command-line arguments `main` consumes. -/
structure Args where
  urls : List Url
  feedUrl : Option String
  feedFile : Option String
  crawl : Bool
  maxDepth : Nat
  sameDomain : Bool

/-- `main` (scraper.py:273-445) up to its exit status: argparse rejects
mutually exclusive inputs and a missing input source with exit status 2
(`parser.error`); a missing or unreadable `--feed-file` logs an error and
`return`s from `main`, which ends the process with exit status 0
(scraper.py:320-325); otherwise the seeds are the argument URLs united with
the feed-derived URLs (the feed-parsing collaborator is the `feedLinks`
oracle) and the crawl loop runs, after which `main` returns normally (exit
status 0). -/
def mainRun (args : Args) (fs : String → FeedFileFS)
    (feedLinks : String → List Url) (web : Web) : Nat × RunAcc :=
  if (args.urls ≠ [] ∧ (args.feedUrl.isSome ∨ args.feedFile.isSome))
      ∨ (args.feedUrl.isSome ∧ args.feedFile.isSome) then
    (2, ⟨[], []⟩)
  else if args.urls = [] ∧ args.feedUrl = none ∧ args.feedFile = none then
    (2, ⟨[], []⟩)
  else
    let feedUrlsToParse : Except Unit (List String) :=
      match args.feedUrl, args.feedFile with
      | some fu, _ => .ok [fu]
      | none, some ff =>
        match fs ff with
        | .missing => .error ()
        | .readError => .error ()
        | .lines ls =>
          .ok ((ls.map String.trim).filter fun l =>
            l ≠ "" ∧ ¬ strStartsWith l "#")
      | none, none => .ok []
    match feedUrlsToParse with
    | .error _ => (0, ⟨[], []⟩)
    | .ok feeds =>
      let fromFeeds := (feeds.map feedLinks).flatten
      (0, runCrawl web ⟨args.crawl, args.maxDepth, args.sameDomain⟩
            (args.urls ++ fromFeeds))

/-- `MAX_FILENAME_LEN` (scraper_app/constants.py:24). -/
def MAX_FILENAME_LEN : Nat := 200

/-- The character class removed by `sanitize_filename`
(scraper_app/utils.py:14): `[:/\\?*<>|]`. -/
def FORBIDDEN : List Char := [':', '/', '\\', '?', '*', '<', '>', '|']

/-- Step 1 of `sanitize_filename` (utils.py:14): every character of the
class is replaced by a hyphen. -/
def replaceForbidden (s : List Char) : List Char :=
  s.map fun c => if c ∈ FORBIDDEN then '-' else c

/-- Step 2 of `sanitize_filename` (utils.py:16): `re.sub(r'-+', '-', s)`,
collapsing every maximal run of hyphens to one hyphen. -/
def collapseHyphens : List Char → List Char
  | [] => []
  | [c] => [c]
  | a :: b :: rest =>
    if a = '-' ∧ b = '-' then collapseHyphens (b :: rest)
    else a :: collapseHyphens (b :: rest)

/-- The characters stripped by step 3 of `sanitize_filename` (utils.py:18):
`.strip(' -')`. -/
def isStripChar (c : Char) : Bool := c = ' ' || c = '-'

/-- Step 3 of `sanitize_filename` (utils.py:18): remove leading and
trailing spaces and hyphens. -/
def stripChars (s : List Char) : List Char :=
  ((s.dropWhile isStripChar).reverse.dropWhile isStripChar).reverse

/-- The index of the last occurrence of a character in a list, if any. -/
def lastIdxOf (c : Char) : List Char → Option Nat
  | [] => none
  | a :: rest =>
    match lastIdxOf c rest with
    | some i => some (i + 1)
    | none => if a = c then some 0 else none

/-- `os.path.splitext` on a separator-free filename (utils.py:21 applies it
to a string from which `/` and `\\` were already removed): split at the last
dot, unless every character before that dot is a dot (CPython treats leading
dots of the basename as part of the name). -/
def splitext (s : List Char) : List Char × List Char :=
  match lastIdxOf '.' s with
  | none => (s, [])
  | some i =>
    if (s.take i).all (fun ch => ch = '.') then (s, [])
    else (s.take i, s.drop i)

/-- The value of `sanitize_filename` before the length limit is applied
(utils.py:14-18). -/
def sanitizeCore (s : List Char) : List Char :=
  stripChars (collapseHyphens (replaceForbidden s))

/-- `sanitize_filename` (scraper_app/utils.py:5-26) on the characters of the
input string: replace the forbidden characters by hyphens, collapse hyphen
runs, strip leading/trailing spaces and hyphens, and when the result exceeds
`MAX_FILENAME_LEN` truncate the name part, keeping the extension (itself
capped at `MAX_FILENAME_LEN / 2` characters). -/
def sanitize_filename (s : List Char) : List Char :=
  let sanitized := sanitizeCore s
  if MAX_FILENAME_LEN < sanitized.length then
    let ne := splitext sanitized
    let ext := if MAX_FILENAME_LEN / 2 < ne.2.length
      then ne.2.take (MAX_FILENAME_LEN / 2) else ne.2
    ne.1.take (MAX_FILENAME_LEN - ext.length) ++ ext
  else sanitized

/-- A feed entry as the program reads it: it may or may not carry a `link`
attribute (scraper_app/parse_feed.py:27-31). -/
structure FeedEntry where
  link : Option String
deriving DecidableEq, Repr

/-- A parsed feed: the `bozo` flag (only logged) and the entries. -/
structure Feed where
  bozo : Bool
  entries : List FeedEntry
deriving DecidableEq, Repr

/-- `parse_feed` (scraper_app/parse_feed.py:7-37): the whole body is inside
`try/except`; an exception from the parse step (modelled as the `error`
case of the input) is caught and yields `[]`; otherwise the entry links are
collected in order, skipping entries without a link. -/
def parse_feed (r : Except String Feed) : List String :=
  match r with
  | .error _ => []
  | .ok feed => feed.entries.filterMap FeedEntry.link



/-- The extension of the last path segment (`os.path.splitext` of the
basename), the "path extension" notion used by the specification's denylist
sentence. -/
def pathExtension (path : String) : String :=
  String.mk (splitext ((splitOnSlash path.data).getLastD [])).2

/-- A page URL used in the concrete runs below. -/
def urlA : Url := ⟨"http", "www.gov.uk", "/a", "", ""⟩

/-- A second page URL used in the concrete runs below. -/
def urlB : Url := ⟨"http", "www.gov.uk", "/b", "", ""⟩

/-- A web in which page `urlB` links to page `urlA` in its content area and
both pages scrape successfully. -/
def webC1 : Web where
  fetch := fun u =>
    if u = urlA then .page ⟨[], [], true⟩
    else if u = urlB then .page ⟨[urlA], [], true⟩
    else .failure
  download := fun _ => false

/-- A seed page URL carrying one attachment. -/
def seedS : Url := ⟨"http", "www.gov.uk", "/page", "", ""⟩

/-- A PDF attachment URL. -/
def docD : Url := ⟨"https", "www.gov.uk", "/doc.pdf", "", ""⟩

/-- A web in which the seed page `seedS` carries the single attachment
`docD`, scrapes successfully, and every binary download succeeds. -/
def webDocs : Web where
  fetch := fun u => if u = seedS then .page ⟨[], [docD], true⟩ else .failure
  download := fun _ => true

/-- A link whose path extension is `.pdf` but whose URL string ends with its
query string. -/
def pdfQueryLink : Url := ⟨"http", "www.gov.uk", "/doc.pdf", "dl=1", ""⟩

/-! ### Helper lemmas about the link-admission fold -/

theorem admit_link_not_mem {cfg : Config} {processed : List Url} {pn : String}
    {link l : Url} {next : List Url} (hd : cfg.sameDomain = true)
    (hn : link.netloc ≠ pn) (h : link ∉ next) :
    link ∉ admit_link cfg processed pn next l := by
  unfold admit_link
  by_cases hg : cfg.sameDomain = true ∧ l.netloc ≠ pn
  · rw [if_pos hg]; exact h
  · rw [if_neg hg]
    have hl : l.netloc = pn := by
      rcases not_and_or.mp hg with h1 | h2
      · exact absurd hd h1
      · exact not_not.mp h2
    split
    · exact h
    split
    · exact h
    · intro hmem
      rcases List.mem_append.mp hmem with hh | hh
      · exact h hh
      · have hle : link = l := by simpa using hh
        exact hn (by rw [hle, hl])

theorem admit_link_mono {cfg : Config} {processed : List Url} {pn : String}
    {link l : Url} {next : List Url} (h : link ∈ next) :
    link ∈ admit_link cfg processed pn next l := by
  unfold admit_link
  split
  · exact h
  split
  · exact h
  split
  · exact h
  · exact List.mem_append_left _ h

theorem admit_fold_not_mem {cfg : Config} {processed : List Url} {pn : String}
    {link : Url} (hd : cfg.sameDomain = true) (hn : link.netloc ≠ pn) :
    ∀ (ls next : List Url), link ∉ next →
      link ∉ ls.foldl (admit_link cfg processed pn) next := by
  intro ls
  induction ls with
  | nil => intro next h; simpa using h
  | cons l t ih =>
    intro next h
    exact ih _ (admit_link_not_mem hd hn h)

theorem admit_fold_mono {cfg : Config} {processed : List Url} {pn : String}
    {link : Url} : ∀ (ls next : List Url), link ∈ next →
      link ∈ ls.foldl (admit_link cfg processed pn) next := by
  intro ls
  induction ls with
  | nil => intro next h; simpa using h
  | cons l t ih =>
    intro next h
    exact ih _ (admit_link_mono h)

theorem admit_fold_mem {cfg : Config} {processed : List Url} {pn : String}
    {link : Url} (hs : cfg.sameDomain = false) (hp : link ∉ processed) :
    ∀ (ls next : List Url), link ∈ ls →
      link ∈ ls.foldl (admit_link cfg processed pn) next := by
  intro ls
  induction ls with
  | nil => intro next h; simp at h
  | cons l t ih =>
    intro next hmem
    rcases List.mem_cons.mp hmem with hle | hmem
    · subst hle
      rw [List.foldl_cons]
      apply admit_fold_mono
      unfold admit_link
      rw [if_neg (by simp [hs]), if_neg hp]
      by_cases hn : link ∈ next
      · rw [if_pos hn]; exact hn
      · rw [if_neg hn]; exact List.mem_append_right _ (by simp)
    · exact ih _ hmem

/-! ### Claim C1 -/

/-- C1: the claim asserts `scrape_and_process` is invoked at most once per
URL over a full run.  The code never adds anything to `processed_urls`
(scraper.py:353,429), so a URL seeded at depth 0 and linked from another
depth-0 page is executed again at depth 1: in `webC1`, page `urlB` links to
the seed `urlA`, and the execution log of the run contains `urlA` twice. -/
theorem C1_url_executed_twice :
    (runCrawl webC1 ⟨true, 1, false⟩ [urlA, urlB]).execLog = [urlA, urlB, urlA] := by
  decide

/-! ### Claim C2 -/

/-- C2: the claim asserts that with `--crawl` unset, Document tasks from the
seed pages are still submitted and downloaded.  The seed page `seedS`
discovers the attachment `docD` (first conjunct), the attachment is queued
for the next depth, but `effective_max_depth = 0` ends the loop before that
frontier is executed: the execution log contains only the seed. -/
theorem C2_documents_not_downloaded_without_crawl :
    scrape_content (webDocs.fetch seedS) = some ([], [docD])
    ∧ (runCrawl webDocs ⟨false, 5, false⟩ [seedS]).execLog = [seedS] := by
  decide

/-! ### Claim C3 -/

/-- C3: the claim asserts Document tasks are admitted and downloaded
regardless of depth, including from pages at depth exactly `k`.  Documents
are queued into the next depth's frontier, so one discovered on a page at
depth `k` is dropped by the loop guard: with `maxDepth = 0` the attachment
`docD` of the depth-0 page is never executed, while with `maxDepth = 1` it
is — document collection is depth-gated, not depth-exempt. -/
theorem C3_documents_gated_by_depth :
    scrape_content (webDocs.fetch seedS) = some ([], [docD])
    ∧ (runCrawl webDocs ⟨true, 0, false⟩ [seedS]).execLog = [seedS]
    ∧ (runCrawl webDocs ⟨true, 1, false⟩ [seedS]).execLog = [seedS, docD] := by
  decide

/-! ### Claim C4 -/

/-- C4: the claim asserts a missing feed file yields a non-zero exit.  The
source handles `FileNotFoundError` with a bare `return` from `main`
(scraper.py:320-322), so the process exit status is 0; no task is scheduled
(the run accumulator is empty), which is the part of the claim that holds. -/
theorem C4_missing_feed_file_exits_zero :
    mainRun ⟨[], none, some "feeds.txt", false, 0, false⟩ (fun _ => .missing)
      (fun _ => []) webDocs = (0, ⟨[], []⟩) := by
  decide

/-! ### Claim C5 -/

/-- The page and web used for the C5 counterexample: content and an
attachment link are in memory, and the markdown write fails. -/
def pageC5 : PageData := ⟨[urlA], [docD], false⟩

/-- A web where every HTML fetch yields `pageC5`. -/
def webC5 : Web where
  fetch := fun _ => .page pageC5
  download := fun _ => false

/-- C5 counterexample: on a write failure with content and a discovered
attachment link already in memory, the executable's `scrape_content`
returns `None, []` (scraper.py:152-154), so `scrape_and_process` records a
failure and stores nothing — the discovered links are not processed for
follow-up scheduling, contradicting the claim. -/
theorem C5_cex :
    webC5.fetch seedS = .page pageC5
    ∧ pageC5.docLinks = [docD]
    ∧ pageC5.writeOk = false
    ∧ scrape_and_process webC5 seedS = (none, none) := by
  decide

/-- C5 amended: on a write failure while saving a Page whose content was
already obtained in memory, the executable scraper (`scrape_content`,
scraper.py:152-154) records the task as Failed and discards its discovered
links; only the library function `parse_and_save_html`
(scraper_app/parse_html.py:197-199), which the executable never calls,
returns the content area and the discovered links despite the write
failure. -/
theorem C5_write_failure_behavior (p : PageData) (hw : p.writeOk = false) :
    scrape_content (.page p) = none
    ∧ parse_and_save_html (.page p) = (some p.anchors, p.docLinks.filter htmlDocOk) := by
  refine ⟨?_, rfl⟩
  simp [scrape_content, hw]

/-- Witness for C5: the amended behaviour at a concrete page whose write
fails. -/
theorem C5_write_failure_behavior_witness :
    scrape_content (.page ⟨[urlA], [], false⟩) = none
    ∧ parse_and_save_html (.page ⟨[urlA], [], false⟩) = (some [urlA], []) :=
  C5_write_failure_behavior ⟨[urlA], [], false⟩ rfl

/-! ### Claim C6 -/

/-- C6: with `--same-domain` set, a link whose netloc differs from the
parent page's exact netloc is never admitted into the next frontier from
that parent (scraper.py:421-425); with the flag unset, a discovered anchor
that passes the `find_sub_links` filters — scheme http/https, host ending
with the `gov.uk` root suffix, no fragment, no denylisted extension — and is
not in `processed_urls` is admitted. -/
theorem C6_same_domain_filter (cfg : Config) (processed next docs anchors : List Url)
    (parent link : Url) (links : List Url) :
    (cfg.sameDomain = true → link.netloc ≠ parent.netloc → link ∉ next →
      link ∉ admit_from_parent cfg processed parent next links)
    ∧ (cfg.sameDomain = false → link ∈ anchors →
      (link.scheme = "http" ∨ link.scheme = "https") →
      strEndsWith link.netloc "gov.uk" = true →
      link.fragment = "" →
      (denylistExts.any fun e => strEndsWith (strLower (urlString link)) e) = false →
      link ∉ processed →
      link ∈ admit_from_parent cfg processed parent next
        (docs ++ find_sub_links parent anchors)) := by
  constructor
  · intro hd hn h
    unfold admit_from_parent
    exact admit_fold_not_mem hd hn _ _ h
  · intro hs hmem hsch hsuf hfrag hdeny hp
    unfold admit_from_parent
    apply admit_fold_mem hs hp
    refine List.mem_dedup.mpr (List.mem_append_right _ ?_)
    unfold find_sub_links
    refine List.mem_dedup.mpr (List.mem_filter.mpr ⟨hmem, ?_⟩)
    simp [subLinkOk, hsuf, hfrag, hdeny]
    exact hsch

/-- The host of the seed page in the C6 witness scenario. -/
def parentA : Url := ⟨"https", "a.example.gov.uk", "/", "", ""⟩

/-- A link on a sibling subdomain of the parent's registrable domain. -/
def linkB : Url := ⟨"https", "b.example.gov.uk", "/p", "", ""⟩

/-- Witness for C6: `b.example.gov.uk` discovered from `a.example.gov.uk` is
rejected with `--same-domain` and admitted without it. -/
theorem C6_same_domain_filter_witness :
    linkB ∉ admit_from_parent ⟨true, 1, true⟩ [] parentA [] [linkB]
    ∧ linkB ∈ admit_from_parent ⟨true, 1, false⟩ [] parentA []
        ([] ++ find_sub_links parentA [linkB]) := by
  constructor
  · exact (C6_same_domain_filter ⟨true, 1, true⟩ [] [] [] [] parentA linkB
      [linkB]).1 rfl (by decide) (by decide)
  · exact (C6_same_domain_filter ⟨true, 1, false⟩ [] [] [] [linkB] parentA linkB
      []).2 rfl (by decide) (by decide) (by decide) rfl (by decide) (by decide)

/-! ### Claim C7 -/

/-- C7 counterexample: the claim says a link whose path extension is in the
denylist is rejected, but `find_sub_links` tests the lowercased URL string
with `str.endswith` (scraper.py:264), so a denylisted path extension
followed by a query string is accepted: `http://www.gov.uk/doc.pdf?dl=1`
has path extension `.pdf`, which is in the denylist, yet it is in the
returned sub-link list. -/
theorem C7_cex :
    pdfQueryLink ∈ find_sub_links ⟨"https", "www.gov.uk", "/", "", ""⟩ [pdfQueryLink]
    ∧ pathExtension pdfQueryLink.path = ".pdf"
    ∧ ".pdf" ∈ denylistExts := by
  decide

/-- C7 amended: a discovered link is in the returned sub-link list iff it is
one of the content area's resolved anchors, its scheme is http or https, its
netloc ends with `gov.uk`, it has no fragment, and the lowercased URL string
does not end with a denylisted extension (the denylist is matched against
the end of the whole URL string, not against the path extension). -/
theorem C7_sub_link_filter (base : Url) (anchors : List Url) (u : Url) :
    u ∈ find_sub_links base anchors ↔
      u ∈ anchors
      ∧ (u.scheme = "http" ∨ u.scheme = "https")
      ∧ strEndsWith u.netloc "gov.uk" = true
      ∧ u.fragment = ""
      ∧ ∀ e ∈ denylistExts, strEndsWith (strLower (urlString u)) e = false := by
  unfold find_sub_links
  rw [List.mem_dedup, List.mem_filter]
  simp only [subLinkOk, Bool.and_eq_true, Bool.or_eq_true, beq_iff_eq,
    Bool.not_eq_true', List.any_eq_false, Bool.not_eq_true]
  tauto

/-! ### Claim C9 -/

/-- C9: `parse_feed` is total on every parse outcome — the `try/except`
body catches any exception and yields `[]`; on a successful parse it
returns exactly the entry links in order, and it returns `[]` when no entry
carries a link. -/
theorem C9_parse_feed_never_raises (r : Except String Feed) :
    (∀ msg, r = .error msg → parse_feed r = [])
    ∧ (∀ feed, r = .ok feed → parse_feed r = feed.entries.filterMap FeedEntry.link)
    ∧ (∀ feed, r = .ok feed → (∀ e ∈ feed.entries, e.link = none) →
        parse_feed r = []) := by
  refine ⟨?_, ?_, ?_⟩
  · rintro msg rfl; rfl
  · rintro feed rfl; rfl
  · rintro feed rfl hnone
    simp only [parse_feed]
    exact List.filterMap_eq_nil_iff.mpr hnone

/-- Witness for C9: a failed parse yields `[]`; a feed with a linkless entry
and a linked entry yields exactly the one link. -/
theorem C9_parse_feed_never_raises_witness :
    parse_feed (.error "connection reset") = []
    ∧ parse_feed (.ok ⟨true, [⟨none⟩, ⟨some "https://www.gov.uk/x"⟩]⟩)
        = ["https://www.gov.uk/x"] := by
  constructor
  · exact (C9_parse_feed_never_raises (.error "connection reset")).1
      "connection reset" rfl
  · have h := (C9_parse_feed_never_raises
      (.ok ⟨true, [⟨none⟩, ⟨some "https://www.gov.uk/x"⟩]⟩)).2.1 _ rfl
    rw [h]; rfl

/-! ### Claim C8 -/

theorem sap_fst_eq {web : Web} {u : Url} :
    (scrape_and_process web u).1 = none ∨ (scrape_and_process web u).1 = some u := by
  unfold scrape_and_process
  by_cases hp : u.path ≠ "" ∧ strEndsWith (strLower u.path) ".pdf"
  · rw [if_pos hp]
    by_cases hd : web.download u <;> simp [hd]
  · rw [if_neg hp]
    rcases hsc : scrape_content (web.fetch u) with _ | r <;> simp [hsc]

theorem filterMap_opt_self (f : Url → Option Url)
    (h : ∀ a, f a = none ∨ f a = some a) :
    ∀ l : List Url, l.filterMap f = l.filter fun a => (f a).isSome := by
  intro l
  induction l with
  | nil => rfl
  | cons a t ih =>
    rcases h a with h' | h' <;>
      simp [List.filterMap_cons, List.filter_cons, h', ih]

theorem crawlLoop_one (web : Web) (cfg : Config) (urls processed : List Url)
    (acc : RunAcc) (h : urls ≠ []) :
    crawlLoop web cfg 1 urls processed acc
      = ⟨acc.execLog ++ urls,
         acc.successes ++ urls.filter fun u => (scrape_and_process web u).1.isSome⟩ := by
  have hsucc : (depth_results web urls).filterMap (fun r => r.2.1)
      = urls.filter fun u => (scrape_and_process web u).1.isSome := by
    unfold depth_results
    rw [List.filterMap_map]
    exact filterMap_opt_self _ (fun a => sap_fst_eq) urls
  rw [crawlLoop]
  rw [if_neg (by simp [h])]
  dsimp only
  rw [hsucc]
  split
  · rfl
  · rw [crawlLoop]

/-- C8: a fetch failure is local to its task.  For a seeds-only run without
crawling, `main` always exits with status 0, every distinct seed is handed
to `scrape_and_process` exactly once (no retry), and the successes are
exactly the seeds whose own task succeeded — other seeds are unaffected by
any failure. -/
theorem C8_failure_isolation (web : Web) (seeds : List Url) (d : Nat) (sd : Bool)
    (fs : String → FeedFileFS) (fl : String → List Url) (hs : seeds ≠ []) :
    mainRun ⟨seeds, none, none, false, d, sd⟩ fs fl web
      = (0, ⟨seeds.dedup,
              seeds.dedup.filter fun u => (scrape_and_process web u).1.isSome⟩)
    ∧ ∀ u : Url, seeds.dedup.count u ≤ 1 := by
  constructor
  · unfold mainRun
    rw [if_neg (by simp), if_neg (by simp [hs])]
    dsimp only
    unfold runCrawl effectiveMaxDepth
    dsimp only
    simp only [List.map_nil, List.flatten_nil, List.append_nil]
    have h1 : (if false = true then d else 0) + 1 = 1 := rfl
    rw [h1]
    rw [crawlLoop_one _ _ _ _ _ (fun hnil => hs ((List.dedup_eq_nil seeds).mp hnil))]
    simp
  · intro u
    exact List.nodup_iff_count_le_one.mp (List.nodup_dedup seeds) u

/-- Seed 1 of the C8 witness run. -/
def w1 : Url := ⟨"https", "www.gov.uk", "/s1", "", ""⟩
/-- Seed 2 of the C8 witness run. -/
def w2 : Url := ⟨"https", "www.gov.uk", "/s2", "", ""⟩
/-- Seed 3 of the C8 witness run, the unreachable one. -/
def w3 : Url := ⟨"https", "www.gov.uk", "/s3", "", ""⟩
/-- Seed 4 of the C8 witness run. -/
def w4 : Url := ⟨"https", "www.gov.uk", "/s4", "", ""⟩
/-- Seed 5 of the C8 witness run. -/
def w5 : Url := ⟨"https", "www.gov.uk", "/s5", "", ""⟩

/-- A web where fetching seed `w3` fails and every other page scrapes
successfully. -/
def webC8 : Web where
  fetch := fun u => if u = w3 then .failure else .page ⟨[], [], true⟩
  download := fun _ => false

/-- Witness for C8: one unreachable seed among five yields a zero exit,
four successes, one failure, and each seed executed once. -/
theorem C8_failure_isolation_witness :
    mainRun ⟨[w1, w2, w3, w4, w5], none, none, false, 0, false⟩
      (fun _ => .lines []) (fun _ => []) webC8
      = (0, ⟨[w1, w2, w3, w4, w5], [w1, w2, w4, w5]⟩) := by
  have h := (C8_failure_isolation webC8 [w1, w2, w3, w4, w5] 0 false
    (fun _ => .lines []) (fun _ => []) (by decide)).1
  rw [h]
  decide

/-! ### Claim C10 -/

/-- The relation between adjacent characters expressing that no two
consecutive hyphens occur. -/
def hyphOk (a b : Char) : Prop := ¬(a = '-' ∧ b = '-')

theorem mem_collapse {a : Char} : ∀ l : List Char, a ∈ collapseHyphens l → a ∈ l := by
  intro l
  induction l with
  | nil => simp [collapseHyphens]
  | cons x xs ih =>
    cases xs with
    | nil => simp [collapseHyphens]
    | cons b r =>
      rw [collapseHyphens]
      split
      · intro h
        exact List.mem_cons_of_mem x (ih h)
      · intro h
        rcases List.mem_cons.mp h with rfl | h2
        · exact List.mem_cons_self a _
        · exact List.mem_cons_of_mem x (ih h2)

theorem collapse_head : ∀ (x : Char) (xs : List Char),
    (collapseHyphens (x :: xs)).head? = some x := by
  intro x xs
  induction xs generalizing x with
  | nil => rfl
  | cons b r ih =>
    rw [collapseHyphens]
    split
    · rename_i hg
      rw [ih b, hg.1, hg.2]
    · rfl

theorem chain_collapse : ∀ l : List Char, List.Chain' hyphOk (collapseHyphens l) := by
  intro l
  induction l with
  | nil => simp [collapseHyphens]
  | cons x xs ih =>
    cases xs with
    | nil => simp [collapseHyphens]
    | cons b r =>
      rw [collapseHyphens]
      split
      · exact ih
      · rename_i hg
        rw [List.chain'_cons']
        refine ⟨?_, ih⟩
        intro y hy
        rw [collapse_head b r] at hy
        have hyb : b = y := by simpa using hy
        subst hyb
        exact hg

theorem chain_dropWhile (q : Char → Bool) :
    ∀ l : List Char, List.Chain' hyphOk l → List.Chain' hyphOk (l.dropWhile q) := by
  intro l
  induction l with
  | nil => intro h; simpa using h
  | cons a t ih =>
    intro h
    rw [List.dropWhile_cons]
    split
    · exact ih (List.chain'_cons'.mp h).2
    · exact h

theorem chain_reverse_hyph {l : List Char} (h : List.Chain' hyphOk l) :
    List.Chain' hyphOk l.reverse := by
  rw [List.chain'_reverse]
  exact h.imp fun a b hab => fun hp => hab ⟨hp.2, hp.1⟩

theorem chain_strip {l : List Char} (h : List.Chain' hyphOk l) :
    List.Chain' hyphOk (stripChars l) := by
  unfold stripChars
  exact chain_reverse_hyph (chain_dropWhile _ _ (chain_reverse_hyph (chain_dropWhile _ _ h)))

theorem chain_take {l : List Char} (h : List.Chain' hyphOk l) (n : Nat) :
    List.Chain' hyphOk (l.take n) := by
  have ht := List.take_append_drop n l
  rw [← ht] at h
  exact (List.chain'_append.mp h).1

theorem chain_drop {l : List Char} (h : List.Chain' hyphOk l) (n : Nat) :
    List.Chain' hyphOk (l.drop n) := by
  have ht := List.take_append_drop n l
  rw [← ht] at h
  exact (List.chain'_append.mp h).2.1

theorem head_dropWhile_strip :
    ∀ (l : List Char) (c : Char), (l.dropWhile isStripChar).head? = some c →
      isStripChar c = false := by
  intro l
  induction l with
  | nil => intro c h; simp at h
  | cons a t ih =>
    intro c h
    rw [List.dropWhile_cons] at h
    split at h
    · exact ih c h
    · rename_i hq
      have hac : a = c := by simpa using h
      subst hac
      simp only [Bool.not_eq_true] at hq
      exact hq

theorem strip_getLast {l : List Char} {c : Char}
    (h : (stripChars l).getLast? = some c) : isStripChar c = false := by
  unfold stripChars at h
  rw [List.getLast?_reverse] at h
  exact head_dropWhile_strip _ c h

theorem head_of_revDropRev (t : List Char) (c : Char)
    (h : ((t.reverse.dropWhile isStripChar).reverse).head? = some c) :
    t.head? = some c := by
  obtain ⟨pre, hp⟩ := (List.dropWhile_suffix isStripChar : _ <:+ t.reverse)
  have ht : t = (t.reverse.dropWhile isStripChar).reverse ++ pre.reverse := by
    calc t = t.reverse.reverse := (List.reverse_reverse t).symm
    _ = (pre ++ t.reverse.dropWhile isStripChar).reverse := by rw [hp]
    _ = (t.reverse.dropWhile isStripChar).reverse ++ pre.reverse :=
        List.reverse_append pre _
  have hne : (t.reverse.dropWhile isStripChar).reverse ≠ [] := by
    intro he
    rw [he] at h
    simp at h
  rw [ht, List.head?_append_of_ne_nil _ hne]
  exact h

theorem strip_head {l : List Char} {c : Char}
    (h : (stripChars l).head? = some c) : isStripChar c = false := by
  unfold stripChars at h
  exact head_dropWhile_strip l c (head_of_revDropRev (l.dropWhile isStripChar) c h)

theorem mem_strip {a : Char} {l : List Char} (h : a ∈ stripChars l) : a ∈ l := by
  unfold stripChars at h
  rw [List.mem_reverse] at h
  have h2 := (List.dropWhile_suffix isStripChar).subset h
  rw [List.mem_reverse] at h2
  exact (List.dropWhile_suffix isStripChar).subset h2

theorem not_strip_char {c : Char} (h : isStripChar c = false) :
    c ≠ '-' ∧ c ≠ ' ' := by
  unfold isStripChar at h
  simp only [Bool.or_eq_false_iff, decide_eq_false_iff_not] at h
  exact ⟨h.2, h.1⟩

theorem core_chain (s : List Char) : List.Chain' hyphOk (sanitizeCore s) :=
  chain_strip (chain_collapse _)

theorem core_forbidden {c : Char} {s : List Char} (h : c ∈ sanitizeCore s) :
    c ∉ FORBIDDEN := by
  have h1 := mem_collapse _ (mem_strip h)
  unfold replaceForbidden at h1
  rw [List.mem_map] at h1
  obtain ⟨a, _, rfl⟩ := h1
  by_cases hf : a ∈ FORBIDDEN
  · rw [if_pos hf]; decide
  · rw [if_neg hf]; exact hf

theorem core_head {s : List Char} {c : Char}
    (h : (sanitizeCore s).head? = some c) : isStripChar c = false :=
  strip_head h

theorem core_getLast {s : List Char} {c : Char}
    (h : (sanitizeCore s).getLast? = some c) : isStripChar c = false :=
  strip_getLast h

theorem lastIdxOf_get {c : Char} :
    ∀ {s : List Char} {i : Nat}, lastIdxOf c s = some i → s[i]? = some c := by
  intro s
  induction s with
  | nil => intro i h; simp [lastIdxOf] at h
  | cons a t ih =>
    intro i h
    rw [lastIdxOf] at h
    rcases hr : lastIdxOf c t with _ | j <;> rw [hr] at h
    · by_cases hac : a = c
      · rw [if_pos hac] at h
        cases h
        simpa using hac
      · rw [if_neg hac] at h
        cases h
    · cases h
      simpa using ih hr

theorem splitext_cases (sc : List Char) :
    splitext sc = (sc, []) ∨
    ∃ i, 1 ≤ i ∧ splitext sc = (sc.take i, sc.drop i) ∧ sc[i]? = some '.' := by
  unfold splitext
  rcases h : lastIdxOf '.' sc with _ | i
  · left; rfl
  · by_cases hall : ((sc.take i).all fun ch => decide (ch = '.')) = true
    · left
      exact if_pos hall
    · right
      refine ⟨i, ?_, if_neg hall, lastIdxOf_get h⟩
      by_contra hi
      have hi0 : i = 0 := by omega
      subst hi0
      simp at hall

theorem head_take_pos {l : List Char} {n : Nat} (h : 1 ≤ n) :
    (l.take n).head? = l.head? := by
  cases l with
  | nil => simp
  | cons a t =>
    cases n with
    | zero => omega
    | succ m => rfl

theorem head_drop (l : List Char) (n : Nat) : (l.drop n).head? = l[n]? := by
  induction l generalizing n with
  | nil => simp
  | cons a t ih =>
    cases n with
    | zero => simp
    | succ m => simpa using ih m

/-- C10 (amended): for every input, `sanitize_filename` yields at most
`MAX_FILENAME_LEN` characters, none of which is a forbidden character, with
no two consecutive hyphens, and the result does not start with a hyphen or a
space; when the cleaned string is within the length limit (no truncation),
the result also does not end with a hyphen or a space.  The unconditional
end-condition of the original claim fails under truncation — see the
counterexample. -/
theorem C10_sanitize_filename_props (s : List Char) :
    (sanitize_filename s).length ≤ MAX_FILENAME_LEN
    ∧ (∀ c ∈ sanitize_filename s, c ∉ FORBIDDEN)
    ∧ List.Chain' hyphOk (sanitize_filename s)
    ∧ (∀ c, (sanitize_filename s).head? = some c → c ≠ '-' ∧ c ≠ ' ')
    ∧ ((sanitizeCore s).length ≤ MAX_FILENAME_LEN →
        ∀ c, (sanitize_filename s).getLast? = some c → c ≠ '-' ∧ c ≠ ' ') := by
  have hmax : MAX_FILENAME_LEN = 200 := rfl
  have hhalf : MAX_FILENAME_LEN / 2 = 100 := rfl
  unfold sanitize_filename
  dsimp only
  split
  · rename_i hlen
    rcases splitext_cases (sanitizeCore s) with hsp | ⟨i, hi1, hsp, hdot⟩
    · rw [hsp]
      dsimp only
      rw [if_neg (by simp)]
      simp only [List.length_nil, Nat.sub_zero, List.append_nil]
      refine ⟨?_, ?_, ?_, ?_, ?_⟩
      · rw [List.length_take]
        exact Nat.min_le_left _ _
      · intro c hc
        exact core_forbidden (List.take_subset _ _ hc)
      · exact chain_take (core_chain s) _
      · intro c hc
        rw [head_take_pos (by omega)] at hc
        exact not_strip_char (core_head hc)
      · intro hcon
        exact absurd hcon (by omega)
    · rw [hsp]
      dsimp only
      set D := (sanitizeCore s).drop i with hD
      set E := if MAX_FILENAME_LEN / 2 < D.length then D.take (MAX_FILENAME_LEN / 2)
        else D with hE
      set A := ((sanitizeCore s).take i).take (MAX_FILENAME_LEN - E.length) with hA
      have hElen : E.length ≤ MAX_FILENAME_LEN / 2 := by
        rw [hE]
        split
        · rw [List.length_take]
          exact Nat.min_le_left _ _
        · rename_i hnl
          omega
      have hEhead : E.head? = some '.' := by
        rw [hE]
        split
        · rw [head_take_pos (by omega), hD, head_drop]
          exact hdot
        · rw [hD, head_drop]
          exact hdot
      have hEchain : List.Chain' hyphOk E := by
        rw [hE]
        split
        · rw [hD]
          exact chain_take (chain_drop (core_chain s) i) _
        · rw [hD]
          exact chain_drop (core_chain s) i
      have hEsub : ∀ c ∈ E, c ∈ sanitizeCore s := by
        intro c hc
        rw [hE] at hc
        have hcD : c ∈ D := by
          revert hc
          split
          · intro hc
            exact List.take_subset _ _ hc
          · intro hc
            exact hc
        rw [hD] at hcD
        exact List.drop_subset _ _ hcD
      have hAchain : List.Chain' hyphOk A := by
        rw [hA]
        exact chain_take (chain_take (core_chain s) i) _
      have hAsub : ∀ c ∈ A, c ∈ sanitizeCore s := by
        intro c hc
        rw [hA] at hc
        exact List.take_subset _ _ (List.take_subset _ _ hc)
      have hAlen : A.length ≤ MAX_FILENAME_LEN - E.length := by
        rw [hA, List.length_take]
        exact Nat.min_le_left _ _
      have hAne : A ≠ [] := by
        rw [hA]
        intro he
        rcases List.take_eq_nil_iff.mp he with h0 | hnil
        · omega
        · rcases List.take_eq_nil_iff.mp hnil with h0 | hnil2
          · omega
          · rw [hnil2] at hlen
            simp at hlen
      have hAhead : A.head? = (sanitizeCore s).head? := by
        rw [hA, head_take_pos (by omega), head_take_pos hi1]
      refine ⟨?_, ?_, ?_, ?_, ?_⟩
      · rw [List.length_append]
        omega
      · intro c hc
        rcases List.mem_append.mp hc with h | h
        · exact core_forbidden (hAsub c h)
        · exact core_forbidden (hEsub c h)
      · rw [List.chain'_append]
        refine ⟨hAchain, hEchain, ?_⟩
        intro x _ y hy
        rw [hEhead] at hy
        have hyy : '.' = y := by simpa using hy
        subst hyy
        intro hcontra
        exact absurd hcontra.2 (by decide)
      · intro c hc
        rw [List.head?_append_of_ne_nil _ hAne, hAhead] at hc
        exact not_strip_char (core_head hc)
      · intro hcon
        exact absurd hcon (by omega)
  · rename_i hlen
    refine ⟨Nat.le_of_not_lt hlen, ?_, core_chain s, ?_, ?_⟩
    · intro c hc
      exact core_forbidden hc
    · intro c hc
      exact not_strip_char (core_head hc)
    · intro _ c hc
      exact not_strip_char (core_getLast hc)

/-- C10 counterexample: on a 201-character input whose 200th character is a
hyphen, the length truncation of `sanitize_filename` (utils.py:20-25) cuts
right after that hyphen (there is no extension to preserve), so the result
ends with a hyphen, contradicting the claim that the result never ends with
a hyphen or a space. -/
theorem C10_cex :
    (sanitize_filename (List.replicate 199 'a' ++ ['-', 'a'])).getLast? = some '-'
    ∧ (List.replicate 199 'a' ++ ['-', 'a']).length = 201 := by
  decide

/-- Witness for C10: the amended properties evaluated on the input `a::b`. -/
theorem C10_sanitize_filename_props_witness :
    sanitize_filename ['a', ':', ':', 'b'] = ['a', '-', 'b']
    ∧ ('a' ≠ '-' ∧ 'a' ≠ ' ') ∧ ('b' ≠ '-' ∧ 'b' ≠ ' ') := by
  refine ⟨by decide, ?_, ?_⟩
  · exact (C10_sanitize_filename_props ['a', ':', ':', 'b']).2.2.2.1 'a' (by decide)
  · exact (C10_sanitize_filename_props ['a', ':', ':', 'b']).2.2.2.2 (by decide)
      'b' (by decide)

end Scraper

